import Mathlib

/-!
Verification of the audio transform and segmentation pipeline of the
`stems` source-separation program.

The development shallowly embeds the C++ sources: samples are modelled as
exact rationals (`ℚ`) standing for the program's `float`s, buffers as
`List ℚ`, machine sizes as `ℕ`, fallible functions as `Except`.  The FFT
executed through the external FFTW library is abstracted as a function
parameter of the `StftProcessor` structure; everything else follows the
source line by line.

Sources embedded:
  * `include/constants.h`  — chunking and stem-order constants;
  * `include/stft.h`       — STFT parameters, `Spectrogram`, error enums;
  * `src/stft.cxx`         — `calculate_num_frames`, `StftProcessor::forward`;
  * `stem_processor.cxx` (current chunked revision) — `deinterleave_stereo`,
    `interleave_stereo`, `extract_chunk`, `blend_chunk`,
    `StemProcessor::process`;
  * `src/onnx_model.cxx`   — tensor packing and output-shape validation of
    `OnnxModel::infer`.
-/

namespace Stems

/-! ## Constants (include/constants.h, include/stft.h) -/

/-- Constant `stft_params::window_size = 4096`. -/
def window_size : ℕ := 4096

/-- Constant `stft_params::hop_size = 1024`. -/
def hop_size : ℕ := 1024

/-- Constant `stft_params::fft_size = window_size`. -/
def fft_size : ℕ := window_size

/-- Constant `stft_params::num_bins = fft_size / 2` (current `stft.h`: 2048 bins). -/
def num_bins : ℕ := fft_size / 2

/-- Constant `separation::model_chunk_size = 343980`. -/
def model_chunk_size : ℕ := 343980

/-- Constant `separation::chunk_overlap = model_chunk_size / 20 = 17199`. -/
def chunk_overlap : ℕ := model_chunk_size / 20

/-- Table `separation::stem_names` — htdemucs protocol order (constants.h). -/
def stem_names : List String := ["drums", "bass", "other", "vocals"]

/-! ## Error enums (stft.h, onnx_model.h, stem_processor.h) -/

/-- Enumeration `StftError` from `stft.h`. -/
inductive StftError where
  | InvalidInput
  | AllocationFailed
  | PlanningFailed
  | InvalidWindowSize
  deriving DecidableEq, Repr

/-- Enumeration `ModelError` from `onnx_model.h`. -/
inductive ModelError where
  | FileNotFound
  | LoadFailed
  | InvalidModel
  | InferenceFailed
  deriving DecidableEq, Repr

/-- Enumeration `ProcessingError` from `stem_processor.h`. -/
inductive ProcessingError where
  | StftFailed
  | InferenceFailed
  | InvalidAudio
  | OutputGenerationFailed
  deriving DecidableEq, Repr

/-! ## Data model -/

/-- Structure `Spectrogram` from `stft.h`: parallel real/imaginary coefficient
sequences plus dimensions. -/
structure Spectrogram where
  re : List ℚ
  im : List ℚ
  num_frames : ℕ
  numBins : ℕ
  deriving DecidableEq, Repr

/-- Structure `SeparatedStems` from `stem_processor.h`: one interleaved stereo
buffer per stem; `guitar`/`piano` only populated by a 6-stem model. -/
structure SeparatedStems where
  drums : List ℚ
  bass : List ℚ
  other : List ℚ
  vocals : List ℚ
  guitar : List ℚ
  piano : List ℚ
  deriving DecidableEq, Repr

/-! ## Chunk extraction (`extract_chunk`, stem_processor.cxx) -/

/-- Function `extract_chunk(audio, offset, target_size)`: a `target_size`-sample
buffer, zero-initialised, whose first `available` entries are copied from
`audio` starting at `offset`, where `available = min(target_size,
audio.size() - offset)` when `offset < audio.size()` and `0` otherwise. -/
def extract_chunk (audio : List ℚ) (offset target_size : ℕ) : List ℚ :=
  let available : ℕ :=
    if offset < audio.length then min target_size (audio.length - offset) else 0
  (List.range target_size).map fun i =>
    if i < available then audio.getD (offset + i) 0 else 0

theorem extract_chunk_length (audio : List ℚ) (offset target_size : ℕ) :
    (extract_chunk audio offset target_size).length = target_size := by
  simp [extract_chunk]

lemma extract_chunk_available (audio : List ℚ) (offset target_size : ℕ) :
    (if offset < audio.length
      then min target_size (audio.length - offset) else 0)
      = min target_size (audio.length - offset) := by
  split
  · rfl
  · have h : audio.length - offset = 0 := by omega
    simp [h]

lemma extract_chunk_getD (audio : List ℚ) (offset target_size i : ℕ)
    (hi : i < target_size) :
    (extract_chunk audio offset target_size).getD i 0 =
      if i < min target_size (audio.length - offset)
        then audio.getD (offset + i) 0 else 0 := by
  unfold extract_chunk
  rw [List.getD_eq_getElem _ _ (by simpa using hi)]
  simp only [List.getElem_map, List.getElem_range]
  rw [extract_chunk_available]

/-- Claim C6: `extract_chunk(buffer, offset, chunk_size)` returns exactly
`chunk_size` samples; positions `0..k-1` (where
`k = min(chunk_size, buffer.length - offset)`, truncated subtraction making
`k = 0` whenever `offset ≥ buffer.length`) copy `buffer[offset..offset+k-1]`,
and all remaining positions are zero.  The embedding reads `audio` only at
indices `offset + i` with `i < k`, all of which are in bounds, so no source
element outside the buffer is accessed. -/
theorem C6_extract_chunk_spec (audio : List ℚ) (offset target_size : ℕ) :
    (extract_chunk audio offset target_size).length = target_size ∧
    (∀ i, i < min target_size (audio.length - offset) →
      (extract_chunk audio offset target_size).getD i 0 =
        audio.getD (offset + i) 0) ∧
    (∀ i, min target_size (audio.length - offset) ≤ i → i < target_size →
      (extract_chunk audio offset target_size).getD i 0 = 0) := by
  refine ⟨extract_chunk_length audio offset target_size, ?_, ?_⟩
  · intro i hi
    rw [extract_chunk_getD audio offset target_size i (lt_of_lt_of_le hi (min_le_left _ _))]
    simp [hi]
  · intro i hk hi
    rw [extract_chunk_getD audio offset target_size i hi]
    simp [Nat.not_lt.mpr hk]

/-- Witness for C6: `extract_chunk [1,2,3] 1 4 = [2,3,0,0]` facts obtained
through `C6_extract_chunk_spec` at the concrete input. -/
theorem C6_extract_chunk_spec_witness :
    (extract_chunk [1, 2, 3] 1 4).length = 4 ∧
    (extract_chunk [1, 2, 3] 1 4).getD 0 0 = 2 ∧
    (extract_chunk [1, 2, 3] 1 4).getD 3 0 = 0 :=
  ⟨(C6_extract_chunk_spec [1, 2, 3] 1 4).1,
   by
    have h := (C6_extract_chunk_spec [1, 2, 3] 1 4).2.1 0 (by decide)
    simpa using h,
   (C6_extract_chunk_spec [1, 2, 3] 1 4).2.2 3 (by decide) (by decide)⟩

/-! ## Crossfade blending (`blend_chunk`, stem_processor.cxx) -/

/-- The blend weight computed inside `blend_chunk`'s loop for sample `i`:
starts at `1.0`; fade-in `i / overlap_size` when not the first chunk and
`i < overlap_size`; fade-out `dist_from_end / overlap_size` (with
`dist_from_end = chunk_size - i`) when not the last chunk and
`dist_from_end ≤ overlap_size`, taking the minimum with the fade-in. -/
def blend_weight (chunk_size overlap_size : ℕ)
    (is_first_chunk is_last_chunk : Bool) (i : ℕ) : ℚ :=
  let w1 : ℚ :=
    if is_first_chunk = false ∧ i < overlap_size
      then (i : ℚ) / (overlap_size : ℚ) else 1
  let dist_from_end := chunk_size - i
  if is_last_chunk = false ∧ dist_from_end ≤ overlap_size
    then min w1 ((dist_from_end : ℚ) / (overlap_size : ℚ)) else w1

/-- One iteration of `blend_chunk`'s loop: when `offset + i` is inside the
output buffer, overwrite `output[offset+i]` with
`output[offset+i] * (1 - weight) + chunk[i] * weight`.  The C++ loop breaks
at the first out-of-bounds index; since `offset + i < output.size()` is
antitone in `i`, breaking and skipping coincide. -/
def blend_step (chunk : List ℚ) (offset overlap_size : ℕ)
    (is_first_chunk is_last_chunk : Bool) (out : List ℚ) (i : ℕ) : List ℚ :=
  if offset + i < out.length then
    out.set (offset + i)
      (out.getD (offset + i) 0 *
          (1 - blend_weight chunk.length overlap_size is_first_chunk is_last_chunk i)
        + chunk.getD i 0 *
          blend_weight chunk.length overlap_size is_first_chunk is_last_chunk i)
  else out

/-- Function `blend_chunk(output, chunk, offset, overlap_size, is_first_chunk,
is_last_chunk)` from stem_processor.cxx: the loop over `i < chunk.size()`. -/
def blend_chunk (output chunk : List ℚ) (offset overlap_size : ℕ)
    (is_first_chunk is_last_chunk : Bool) : List ℚ :=
  (List.range chunk.length).foldl
    (blend_step chunk offset overlap_size is_first_chunk is_last_chunk) output

lemma blend_foldRange_length (chunk : List ℚ) (offset overlap_size : ℕ)
    (f l : Bool) :
    ∀ (n : ℕ) (output : List ℚ),
      ((List.range n).foldl (blend_step chunk offset overlap_size f l)
        output).length = output.length := by
  intro n
  induction n with
  | zero => intro output; simp
  | succ m ih =>
    intro output
    rw [List.range_succ, List.foldl_append]
    simp only [List.foldl_cons, List.foldl_nil]
    rw [show ∀ s, (blend_step chunk offset overlap_size f l s m).length
          = s.length from ?_]
    · exact ih output
    · intro s
      unfold blend_step
      split <;> simp

theorem blend_chunk_length (output chunk : List ℚ) (offset overlap_size : ℕ)
    (f l : Bool) :
    (blend_chunk output chunk offset overlap_size f l).length
      = output.length :=
  blend_foldRange_length chunk offset overlap_size f l chunk.length output

lemma blend_foldRange_getD (chunk : List ℚ) (offset overlap_size : ℕ)
    (f l : Bool) (output : List ℚ) :
    ∀ (n : ℕ) (j : ℕ), j < output.length →
      ((List.range n).foldl (blend_step chunk offset overlap_size f l)
          output).getD j 0 =
        if offset ≤ j ∧ j < offset + n then
          output.getD j 0 *
              (1 - blend_weight chunk.length overlap_size f l (j - offset))
            + chunk.getD (j - offset) 0 *
              blend_weight chunk.length overlap_size f l (j - offset)
        else output.getD j 0 := by
  intro n
  induction n with
  | zero =>
    intro j hj
    simp only [List.range_zero, List.foldl_nil]
    rw [if_neg (by omega)]
  | succ m ih =>
    intro j hj
    rw [List.range_succ, List.foldl_append]
    simp only [List.foldl_cons, List.foldl_nil]
    set st := (List.range m).foldl
      (blend_step chunk offset overlap_size f l) output with hst
    have hlen : st.length = output.length :=
      blend_foldRange_length chunk offset overlap_size f l m output
    unfold blend_step
    by_cases hb : offset + m < st.length
    · rw [if_pos hb]
      have hvm : st.getD (offset + m) 0 = output.getD (offset + m) 0 := by
        rw [ih (offset + m) (hlen ▸ hb)]
        have : ¬(offset ≤ offset + m ∧ offset + m < offset + m) := by omega
        rw [if_neg this]
      by_cases hjm : j = offset + m
      · subst hjm
        rw [List.getD_eq_getElem _ _ (by simpa [hlen] using hb)]
        rw [List.getElem_set_self]
        rw [hvm]
        have hcond : offset ≤ offset + m ∧ offset + m < offset + (m + 1) := by
          omega
        rw [if_pos hcond]
        simp only [Nat.add_sub_cancel_left]
      · rw [List.getD_eq_getElem _ _ (by simpa [hlen] using hj)]
        rw [List.getElem_set_ne (by omega)]
        rw [← List.getD_eq_getElem st 0 (by simpa [hlen] using hj)]
        rw [ih j hj]
        have : (offset ≤ j ∧ j < offset + m) ↔
            (offset ≤ j ∧ j < offset + (m + 1)) := by omega
        by_cases hc : offset ≤ j ∧ j < offset + m
        · rw [if_pos hc, if_pos (this.mp hc)]
        · rw [if_neg hc, if_neg (fun h => hc (by omega))]
    · rw [if_neg hb]
      rw [ih j hj]
      have hj' : j < offset + m := by omega
      have : (offset ≤ j ∧ j < offset + m) ↔
          (offset ≤ j ∧ j < offset + (m + 1)) := by omega
      by_cases hc : offset ≤ j ∧ j < offset + m
      · rw [if_pos hc, if_pos (this.mp hc)]
      · rw [if_neg hc, if_neg (fun h => hc (by omega))]

/-- Pointwise characterisation of `blend_chunk` at an in-bounds index. -/
lemma blend_chunk_getD (output chunk : List ℚ) (offset overlap_size : ℕ)
    (f l : Bool) (i : ℕ) (hi : i < chunk.length)
    (hoff : offset + i < output.length) :
    (blend_chunk output chunk offset overlap_size f l).getD (offset + i) 0 =
      output.getD (offset + i) 0 *
          (1 - blend_weight chunk.length overlap_size f l i)
        + chunk.getD i 0 * blend_weight chunk.length overlap_size f l i := by
  unfold blend_chunk
  rw [blend_foldRange_getD chunk offset overlap_size f l output chunk.length
    (offset + i) hoff]
  have hcond : offset ≤ offset + i ∧ offset + i < offset + chunk.length := by
    omega
  rw [if_pos hcond]
  simp only [Nat.add_sub_cancel_left]

/-- Indices outside `[offset, offset + chunk.length)` are untouched. -/
lemma blend_chunk_getD_outside (output chunk : List ℚ)
    (offset overlap_size : ℕ) (f l : Bool) (j : ℕ) (hj : j < output.length)
    (hout : j < offset ∨ offset + chunk.length ≤ j) :
    (blend_chunk output chunk offset overlap_size f l).getD j 0 =
      output.getD j 0 := by
  unfold blend_chunk
  rw [blend_foldRange_getD chunk offset overlap_size f l output chunk.length
    j hj]
  rw [if_neg (by omega)]

/-- Claim C1: for every call of `blend_chunk` and every in-bounds chunk index
`i`, the blend weight is `1.0` except: fade-in `i / overlap` when not the
first chunk and `i < overlap`; fade-out ramping linearly down toward the
chunk's end (`(chunk_size - i) / overlap`) when not the last chunk and the
sample is within `overlap` of the end; the minimum of the two when both
apply.  The output sample becomes
`output[offset+i] * (1 - weight) + chunk[i] * weight`, the buffer length is
unchanged, and indices outside the chunk's footprint are untouched (no
write at or past the buffer's length). -/
theorem C1_blend_chunk_spec (output chunk : List ℚ)
    (offset overlap_size : ℕ) (is_first_chunk is_last_chunk : Bool) (i : ℕ)
    (hi : i < chunk.length) (hoff : offset + i < output.length) :
    (blend_chunk output chunk offset overlap_size is_first_chunk
        is_last_chunk).length = output.length ∧
    (∀ j, j < output.length → j < offset ∨ offset + chunk.length ≤ j →
      (blend_chunk output chunk offset overlap_size is_first_chunk
        is_last_chunk).getD j 0 = output.getD j 0) ∧
    ∃ w : ℚ,
      ((is_first_chunk = true ∨ overlap_size ≤ i) →
        (is_last_chunk = true ∨ overlap_size < chunk.length - i) →
        w = 1) ∧
      (is_first_chunk = false → i < overlap_size →
        (is_last_chunk = true ∨ overlap_size < chunk.length - i) →
        w = (i : ℚ) / (overlap_size : ℚ)) ∧
      (is_last_chunk = false → chunk.length - i ≤ overlap_size →
        (is_first_chunk = true ∨ overlap_size ≤ i) →
        w = ((chunk.length - i : ℕ) : ℚ) / (overlap_size : ℚ)) ∧
      (is_first_chunk = false → i < overlap_size →
        is_last_chunk = false → chunk.length - i ≤ overlap_size →
        w = min ((i : ℚ) / (overlap_size : ℚ))
          (((chunk.length - i : ℕ) : ℚ) / (overlap_size : ℚ))) ∧
      (blend_chunk output chunk offset overlap_size is_first_chunk
          is_last_chunk).getD (offset + i) 0 =
        output.getD (offset + i) 0 * (1 - w) + chunk.getD i 0 * w := by
  refine ⟨blend_chunk_length output chunk offset overlap_size _ _,
    fun j hj hout =>
      blend_chunk_getD_outside output chunk offset overlap_size _ _ j hj hout,
    blend_weight chunk.length overlap_size is_first_chunk is_last_chunk i,
    ?_, ?_, ?_, ?_,
    blend_chunk_getD output chunk offset overlap_size _ _ i hi hoff⟩
  · intro h1 h2
    simp only [blend_weight]
    rw [if_neg ?hA, if_neg ?hB]
    case hA =>
      rintro ⟨ha, hb⟩
      rcases h2 with h2 | h2
      · rw [h2] at ha; simp at ha
      · omega
    case hB =>
      rintro ⟨ha, hb⟩
      rcases h1 with h1 | h1
      · rw [h1] at ha; simp at ha
      · omega
  · intro h1 h2 h3
    simp only [blend_weight]
    rw [if_neg ?hC, if_pos ⟨h1, h2⟩]
    case hC =>
      rintro ⟨ha, hb⟩
      rcases h3 with h3 | h3
      · rw [h3] at ha; simp at ha
      · omega
  · intro h1 h2 h3
    have hdist : 0 < chunk.length - i := by omega
    have hov : 0 < overlap_size := by omega
    simp only [blend_weight]
    rw [if_pos ⟨h1, h2⟩, if_neg ?hD]
    case hD =>
      rintro ⟨ha, hb⟩
      rcases h3 with h3 | h3
      · rw [h3] at ha; simp at ha
      · omega
    rw [min_eq_right]
    rw [div_le_one (by exact_mod_cast hov)]
    exact_mod_cast h2
  · intro h1 h2 h3 h4
    simp only [blend_weight]
    rw [if_pos ⟨h3, h4⟩, if_pos ⟨h1, h2⟩]

/-- Witness for C1 at `output = [5,6,7]`, `chunk = [1,2]`, `offset = 1`,
`overlap = 1`, interior chunk, `i = 0`. -/
theorem C1_blend_chunk_spec_witness :
    (blend_chunk [5, 6, 7] [1, 2] 1 1 false false).length =
      ([5, 6, 7] : List ℚ).length ∧
    (∀ j, j < ([5, 6, 7] : List ℚ).length →
      j < 1 ∨ 1 + ([1, 2] : List ℚ).length ≤ j →
      (blend_chunk [5, 6, 7] [1, 2] 1 1 false false).getD j 0 =
        ([5, 6, 7] : List ℚ).getD j 0) ∧
    ∃ w : ℚ,
      ((false = true ∨ 1 ≤ 0) →
        (false = true ∨ 1 < ([1, 2] : List ℚ).length - 0) → w = 1) ∧
      (false = false → 0 < 1 →
        (false = true ∨ 1 < ([1, 2] : List ℚ).length - 0) →
        w = ((0 : ℕ) : ℚ) / ((1 : ℕ) : ℚ)) ∧
      (false = false → ([1, 2] : List ℚ).length - 0 ≤ 1 →
        (false = true ∨ 1 ≤ 0) →
        w = ((([1, 2] : List ℚ).length - 0 : ℕ) : ℚ) / ((1 : ℕ) : ℚ)) ∧
      (false = false → 0 < 1 → false = false →
        ([1, 2] : List ℚ).length - 0 ≤ 1 →
        w = min (((0 : ℕ) : ℚ) / ((1 : ℕ) : ℚ))
          (((([1, 2] : List ℚ).length - 0 : ℕ) : ℚ) / ((1 : ℕ) : ℚ))) ∧
      (blend_chunk [5, 6, 7] [1, 2] 1 1 false false).getD (1 + 0) 0 =
        ([5, 6, 7] : List ℚ).getD (1 + 0) 0 * (1 - w) +
          ([1, 2] : List ℚ).getD 0 0 * w :=
  C1_blend_chunk_spec [5, 6, 7] [1, 2] 1 1 false false 0
    (by decide) (by decide)

/-! ## Chunking parameters (`StemProcessor::process`, stem_processor.cxx) -/

/-- Derived `step = chunk_size - overlap` (326781 samples). -/
def chunk_step : ℕ := model_chunk_size - chunk_overlap

/-- Derived `num_chunks = (num_samples + step - 1) / step` — ceiling division. -/
def num_chunks (num_samples : ℕ) : ℕ :=
  (num_samples + chunk_step - 1) / chunk_step

/-- Derived `offset = chunk_idx * step`. -/
def chunk_offset (chunk_idx : ℕ) : ℕ := chunk_idx * chunk_step

lemma chunk_step_eq : chunk_step = 326781 := by
  norm_num [chunk_step, model_chunk_size, chunk_overlap]

lemma num_chunks_eq_ceil (n : ℕ) :
    num_chunks n = ⌈(n : ℚ) / (chunk_step : ℚ)⌉₊ := by
  have hcast : ((chunk_step : ℕ) : ℚ) = (326781 : ℚ) := by
    rw [chunk_step_eq]; norm_num
  rw [hcast]
  unfold num_chunks
  rw [chunk_step_eq]
  refine Nat.le_antisymm ?_ ?_
  · have hle : (n : ℚ) ≤ (⌈(n : ℚ) / (326781 : ℚ)⌉₊ : ℚ) * 326781 := by
      have h1 := Nat.le_ceil ((n : ℚ) / (326781 : ℚ))
      calc (n : ℚ) = (n : ℚ) / 326781 * 326781 := by
            rw [div_mul_cancel₀ _ (by norm_num : (326781 : ℚ) ≠ 0)]
        _ ≤ (⌈(n : ℚ) / (326781 : ℚ)⌉₊ : ℚ) * 326781 :=
            mul_le_mul_of_nonneg_right h1 (by norm_num)
    have hn : n ≤ ⌈(n : ℚ) / (326781 : ℚ)⌉₊ * 326781 := by exact_mod_cast hle
    omega
  · rw [Nat.ceil_le]
    have hge : ((n + 326781 - 1) / 326781 : ℕ) * 326781 ≥ n := by omega
    rw [div_le_iff₀ (by norm_num : (0 : ℚ) < 326781)]
    exact_mod_cast hge

/-- Claim C2: for every signal length `n > 0`, the number of chunks is
`⌈n / step⌉` with `step = chunk_size - overlap`; chunk `k` starts at
`k * step` with extent `model_chunk_size`; and the union of the chunk
ranges `[offset, offset + chunk_size)` covers `[0, n)` with no gaps. -/
theorem C2_chunk_coverage (n : ℕ) (hn : 0 < n) :
    num_chunks n = ⌈(n : ℚ) / ((model_chunk_size - chunk_overlap : ℕ) : ℚ)⌉₊ ∧
    (∀ k, chunk_offset k = k * (model_chunk_size - chunk_overlap)) ∧
    (∀ m, m < n → ∃ k, k < num_chunks n ∧
      chunk_offset k ≤ m ∧ m < chunk_offset k + model_chunk_size) := by
  refine ⟨num_chunks_eq_ceil n, fun k => rfl, ?_⟩
  intro m hm
  refine ⟨m / chunk_step, ?_, ?_, ?_⟩
  · unfold num_chunks
    rw [chunk_step_eq]
    omega
  · unfold chunk_offset
    rw [chunk_step_eq]
    omega
  · unfold chunk_offset
    rw [chunk_step_eq]
    have : model_chunk_size = 343980 := by norm_num [model_chunk_size]
    omega

/-- Witness for C2 at `n = 1000000` (covering sample `m = 653562`, the
first sample of the third chunk's exclusive region). -/
theorem C2_chunk_coverage_witness :
    num_chunks 1000000 =
      ⌈((1000000 : ℕ) : ℚ) /
        ((model_chunk_size - chunk_overlap : ℕ) : ℚ)⌉₊ ∧
    (∀ k, chunk_offset k = k * (model_chunk_size - chunk_overlap)) ∧
    (∀ m, m < 1000000 → ∃ k, k < num_chunks 1000000 ∧
      chunk_offset k ≤ m ∧ m < chunk_offset k + model_chunk_size) :=
  C2_chunk_coverage 1000000 (by decide)

/-! ## Stereo interleaving (stem_processor.cxx) -/

/-- Function `deinterleave_stereo(interleaved)`: split an interleaved stereo buffer
into `left[i] = interleaved[2i]`, `right[i] = interleaved[2i+1]`, each of
length `interleaved.size() / 2`. -/
def deinterleave_stereo (interleaved : List ℚ) : List ℚ × List ℚ :=
  ((List.range (interleaved.length / 2)).map fun i =>
      interleaved.getD (i * 2) 0,
   (List.range (interleaved.length / 2)).map fun i =>
      interleaved.getD (i * 2 + 1) 0)

/-- Function `interleave_stereo(left, right)`: a `2 * left.size()` buffer with
`result[2i] = left[i]` and `result[2i+1] = right[i]` — the loop writing
one `(left[i], right[i])` pair per iteration is rendered as flattening the
list of pairs. -/
def interleave_stereo (left right : List ℚ) : List ℚ :=
  (((List.range left.length).map fun i =>
    [left.getD i 0, right.getD i 0])).flatten

lemma pairs_flatten_length (f g : ℕ → ℚ) (n : ℕ) :
    (((List.range n).map fun j => [f j, g j]).flatten).length = 2 * n := by
  induction n with
  | zero => simp
  | succ m ih =>
    rw [List.range_succ, List.map_append, List.flatten_append,
      List.length_append, ih]
    simp
    ring

lemma pairs_flatten_getD_even (f g : ℕ → ℚ) (n i : ℕ) (hi : i < n) :
    (((List.range n).map fun j => [f j, g j]).flatten).getD (2 * i) 0
      = f i := by
  induction n with
  | zero => omega
  | succ m ih =>
    rw [List.range_succ, List.map_append, List.flatten_append]
    by_cases him : i < m
    · rw [List.getD_append _ _ 0 _ (by rw [pairs_flatten_length]; omega)]
      exact ih him
    · have heq : i = m := by omega
      subst heq
      rw [List.getD_append_right _ _ 0 _ (by rw [pairs_flatten_length])]
      rw [pairs_flatten_length]
      have h2 : 2 * i - 2 * i = 0 := by omega
      simp [h2]

lemma pairs_flatten_getD_odd (f g : ℕ → ℚ) (n i : ℕ) (hi : i < n) :
    (((List.range n).map fun j => [f j, g j]).flatten).getD (2 * i + 1) 0
      = g i := by
  induction n with
  | zero => omega
  | succ m ih =>
    rw [List.range_succ, List.map_append, List.flatten_append]
    by_cases him : i < m
    · rw [List.getD_append _ _ 0 _ (by rw [pairs_flatten_length]; omega)]
      exact ih him
    · have heq : i = m := by omega
      subst heq
      rw [List.getD_append_right _ _ 0 _ (by rw [pairs_flatten_length]; omega)]
      rw [pairs_flatten_length]
      have h2 : 2 * i + 1 - 2 * i = 1 := by omega
      simp [h2]

lemma interleave_stereo_length (left right : List ℚ) :
    (interleave_stereo left right).length = 2 * left.length :=
  pairs_flatten_length _ _ left.length

lemma interleave_stereo_getD_even (left right : List ℚ) (i : ℕ)
    (hi : i < left.length) :
    (interleave_stereo left right).getD (2 * i) 0 = left.getD i 0 :=
  pairs_flatten_getD_even _ _ left.length i hi

lemma interleave_stereo_getD_odd (left right : List ℚ) (i : ℕ)
    (hi : i < left.length) :
    (interleave_stereo left right).getD (2 * i + 1) 0 = right.getD i 0 :=
  pairs_flatten_getD_odd _ _ left.length i hi

/-- A buffer of the form `interleave_stereo x x` is dual-mono. -/
lemma interleave_self_dual_mono (x : List ℚ) (i : ℕ)
    (hi : 2 * i + 1 < (interleave_stereo x x).length) :
    (interleave_stereo x x).getD (2 * i) 0 =
      (interleave_stereo x x).getD (2 * i + 1) 0 := by
  have hx : i < x.length := by
    have := interleave_stereo_length x x
    omega
  rw [interleave_stereo_getD_even x x i hx,
    interleave_stereo_getD_odd x x i hx]

/-! ## The chunked processing loop (`StemProcessor::process`,
stem_processor.cxx, current revision)

The ONNX engine call is abstracted as `infer : ℕ → Option (List (List ℚ))`
giving, per chunk index, the list of per-stem time-domain buffers (the
`.real` fields of the `Spectrogram`s `OnnxModel::infer` returns), or `none`
when the engine fails.  Every chunk handed to the STFT has exactly
`model_chunk_size ≥ window_size` samples, so with an initialised plan
`forward` cannot fail inside the loop and the `StftFailed` path is never
taken; it is therefore not modelled here. -/

/-- The six mono accumulation buffers `drums_out` … `piano_out`. -/
structure StemBuffers where
  drums : List ℚ
  bass : List ℚ
  other : List ℚ
  vocals : List ℚ
  guitar : List ℚ
  piano : List ℚ
  deriving DecidableEq, Repr

/-- One loop iteration of `StemProcessor::process`: stem-count detection on
chunk 0, consistency check, then blending of `stem_specs[0..3]` into
drums/bass/other/vocals (and `[4]`,`[5]` into guitar/piano for a 6-stem
model). -/
def process_chunk_body (stem_specs : List (List ℚ))
    (numChunks chunk_idx detected : ℕ) (bufs : StemBuffers) :
    Except ProcessingError (StemBuffers × ℕ) :=
  let offset := chunk_offset chunk_idx
  let is_first := decide (chunk_idx = 0)
  let is_last := decide (chunk_idx = numChunks - 1)
  let num_detected := if chunk_idx = 0 then stem_specs.length else detected
  if chunk_idx = 0 ∧ stem_specs.length ≠ 4 ∧ stem_specs.length ≠ 6 then
    .error .OutputGenerationFailed
  else if stem_specs.length ≠ num_detected then
    .error .OutputGenerationFailed
  else
    .ok
      ({ drums := blend_chunk bufs.drums (stem_specs.getD 0 []) offset
            chunk_overlap is_first is_last
         bass := blend_chunk bufs.bass (stem_specs.getD 1 []) offset
            chunk_overlap is_first is_last
         other := blend_chunk bufs.other (stem_specs.getD 2 []) offset
            chunk_overlap is_first is_last
         vocals := blend_chunk bufs.vocals (stem_specs.getD 3 []) offset
            chunk_overlap is_first is_last
         guitar := if num_detected = 6 then
            blend_chunk bufs.guitar (stem_specs.getD 4 []) offset
              chunk_overlap is_first is_last
          else bufs.guitar
         piano := if num_detected = 6 then
            blend_chunk bufs.piano (stem_specs.getD 5 []) offset
              chunk_overlap is_first is_last
          else bufs.piano }, num_detected)

/-- The chunk loop, by remaining iteration count. -/
def process_chunk_loop (infer : ℕ → Option (List (List ℚ)))
    (numChunks : ℕ) :
    ℕ → ℕ → ℕ → StemBuffers → Except ProcessingError (StemBuffers × ℕ)
  | 0, _, detected, bufs => .ok (bufs, detected)
  | remaining + 1, chunk_idx, detected, bufs =>
    match infer chunk_idx with
    | none => .error .InferenceFailed
    | some stem_specs =>
      match process_chunk_body stem_specs numChunks chunk_idx detected
          bufs with
      | .error e => .error e
      | .ok (bufs', detected') =>
        process_chunk_loop infer numChunks remaining (chunk_idx + 1)
          detected' bufs'

/-- Function `StemProcessor::process(audio, sample_rate, channels)`: reject
non-stereo input, de-interleave, run the chunk loop on zero-filled
buffers, and interleave each processed mono stem into both output
channels (`interleave_stereo(x, x)` — the right channel is not processed
separately).  `guitar`/`piano` stay empty for a 4-stem model. -/
def process (audio : List ℚ) (channels : ℤ)
    (infer : ℕ → Option (List (List ℚ))) :
    Except ProcessingError SeparatedStems :=
  if channels ≠ 2 then .error .InvalidAudio
  else
    let left := (deinterleave_stereo audio).1
    let n := left.length
    let nc := num_chunks n
    let z : List ℚ := List.replicate n 0
    match process_chunk_loop infer nc nc 0 0 ⟨z, z, z, z, z, z⟩ with
    | .error e => .error e
    | .ok (bufs, detected) =>
      .ok
        { drums := interleave_stereo bufs.drums bufs.drums
          bass := interleave_stereo bufs.bass bufs.bass
          other := interleave_stereo bufs.other bufs.other
          vocals := interleave_stereo bufs.vocals bufs.vocals
          guitar := if detected = 6 then
              interleave_stereo bufs.guitar bufs.guitar
            else []
          piano := if detected = 6 then
              interleave_stereo bufs.piano bufs.piano
            else [] }

/-- Claim C10: every stem buffer in the `SeparatedStems` returned by a
successful `process` call is dual-mono: `stem[2i] = stem[2i+1]` for every
in-bounds pair, because the single processed (left) channel is duplicated
into both interleaved output channels. -/
theorem C10_dual_mono (audio : List ℚ) (channels : ℤ)
    (infer : ℕ → Option (List (List ℚ))) (r : SeparatedStems)
    (h : process audio channels infer = .ok r) :
    ∀ b ∈ [r.drums, r.bass, r.other, r.vocals, r.guitar, r.piano],
      ∀ i, 2 * i + 1 < b.length →
        b.getD (2 * i) 0 = b.getD (2 * i + 1) 0 := by
  unfold process at h
  split at h
  · exact absurd h (by simp)
  · dsimp only at h
    split at h
    · exact absurd h (by simp)
    · rename_i bufs detected heq
      have hr := (Except.ok.injEq _ _).mp h
      subst hr
      intro b hb i hi
      simp only [List.mem_cons, List.not_mem_nil, or_false] at hb
      rcases hb with hb | hb | hb | hb | hb | hb <;> subst hb
      · exact interleave_self_dual_mono _ i hi
      · exact interleave_self_dual_mono _ i hi
      · exact interleave_self_dual_mono _ i hi
      · exact interleave_self_dual_mono _ i hi
      · by_cases hd : detected = 6
        · simp only [hd, if_pos] at hi ⊢
          exact interleave_self_dual_mono _ i (by simpa using hi)
        · simp only [if_neg hd] at hi
          simp at hi
      · by_cases hd : detected = 6
        · simp only [hd, if_pos] at hi ⊢
          exact interleave_self_dual_mono _ i (by simpa using hi)
        · simp only [if_neg hd] at hi
          simp at hi

/-- Witness for C10: a one-chunk stereo run with a 4-stem engine result;
the dual-mono property at the drums buffer's first frame follows from
`C10_dual_mono`. -/
theorem C10_dual_mono_witness :
    (process [(0 : ℚ), 0] 2 (fun _ => some [[], [], [], []])
      = .ok ⟨[0, 0], [0, 0], [0, 0], [0, 0], [], []⟩) ∧
    ([(0 : ℚ), 0].getD 0 0 = [(0 : ℚ), 0].getD 1 0) := by
  have heval : process [(0 : ℚ), 0] 2 (fun _ => some [[], [], [], []])
      = .ok ⟨[0, 0], [0, 0], [0, 0], [0, 0], [], []⟩ := by rfl
  refine ⟨heval, ?_⟩
  have h := C10_dual_mono [(0 : ℚ), 0] 2 (fun _ => some [[], [], [], []])
    ⟨[0, 0], [0, 0], [0, 0], [0, 0], [], []⟩ heval
  have h0 := h [(0 : ℚ), 0] (by simp) 0 (by simp)
  exact h0

/-! ## Loop characterisation -/

/-- Chunks `idx, idx+1, …, idx+len-1` blended in increasing offset order
into a single stem's accumulation buffer. -/
def blend_from (stemOf : ℕ → List ℚ) (numChunks idx len : ℕ)
    (init : List ℚ) : List ℚ :=
  (List.range' idx len).foldl
    (fun out k => blend_chunk out (stemOf k) (chunk_offset k) chunk_overlap
      (decide (k = 0)) (decide (k = numChunks - 1))) init

/-- All chunks of a run blended in order — the full overlap-add
reconstruction of one stem. -/
def blend_sequence (stemOf : ℕ → List ℚ) (numChunks : ℕ)
    (init : List ℚ) : List ℚ :=
  blend_from stemOf numChunks 0 numChunks init

lemma deinterleave_fst_length (audio : List ℚ) :
    (deinterleave_stereo audio).1.length = audio.length / 2 := by
  simp [deinterleave_stereo]

lemma num_chunks_pos (n : ℕ) (hn : 0 < n) : 0 < num_chunks n := by
  unfold num_chunks
  rw [chunk_step_eq]
  omega

/-- When every chunk in `[idx, nc)` gets a successful engine result with
the cached stem count, the loop succeeds and each buffer holds the ordered
blend of its stem index: 0 → drums, 1 → bass, 2 → other, 3 → vocals, and
for six stems 4 → guitar, 5 → piano. -/
lemma process_chunk_loop_ok (infer : ℕ → Option (List (List ℚ)))
    (stems : ℕ → List (List ℚ)) (c nc : ℕ)
    (hc : c = 4 ∨ c = 6) (hnc : 0 < nc)
    (hinf : ∀ k, k < nc → infer k = some (stems k) ∧ (stems k).length = c) :
    ∀ (remaining idx d : ℕ) (bufs : StemBuffers),
      idx + remaining = nc → (idx = 0 ∨ d = c) →
      process_chunk_loop infer nc remaining idx d bufs =
        .ok
          ({ drums := blend_from (fun k => (stems k).getD 0 []) nc idx
                remaining bufs.drums
             bass := blend_from (fun k => (stems k).getD 1 []) nc idx
                remaining bufs.bass
             other := blend_from (fun k => (stems k).getD 2 []) nc idx
                remaining bufs.other
             vocals := blend_from (fun k => (stems k).getD 3 []) nc idx
                remaining bufs.vocals
             guitar := if c = 6 then
                blend_from (fun k => (stems k).getD 4 []) nc idx remaining
                  bufs.guitar
              else bufs.guitar
             piano := if c = 6 then
                blend_from (fun k => (stems k).getD 5 []) nc idx remaining
                  bufs.piano
              else bufs.piano }, c) := by
  intro remaining
  induction remaining with
  | zero =>
    intro idx d bufs hsum hd
    have hidx : idx = nc := by omega
    have hdc : d = c := by
      rcases hd with hd | hd
      · omega
      · exact hd
    subst hdc
    unfold process_chunk_loop
    unfold blend_from
    simp [ite_self]
  | succ r ih =>
    intro idx d bufs hsum hd
    have hidx : idx < nc := by omega
    obtain ⟨hio, hlenc⟩ := hinf idx hidx
    have hdet : (if idx = 0 then (stems idx).length else d) = c := by
      split
      · exact hlenc
      · rcases hd with hd | hd
        · omega
        · exact hd
    unfold process_chunk_loop
    rw [hio]
    unfold process_chunk_body
    dsimp only
    rw [if_neg ?hchk1, if_neg ?hchk2]
    case hchk1 =>
      rintro ⟨h0, h4, h6⟩
      rcases hc with hc | hc <;> omega
    case hchk2 =>
      rw [hdet, hlenc]
      exact fun h => h rfl
    dsimp only
    rw [ih (idx + 1) (if idx = 0 then (stems idx).length else d) _ (by omega)
      (Or.inr hdet)]
    rw [hdet]
    unfold blend_from
    simp only [List.range'_succ, List.foldl_cons]
    by_cases hc6 : c = 6
    · simp only [if_pos hc6]
    · simp only [if_neg hc6]

/-- A loop error propagates unchanged out of `process` (stereo input). -/
lemma process_stereo_error (audio : List ℚ)
    (infer : ℕ → Option (List (List ℚ))) (e : ProcessingError)
    (h : process_chunk_loop infer (num_chunks (audio.length / 2))
        (num_chunks (audio.length / 2)) 0 0
        ⟨List.replicate (audio.length / 2) 0,
         List.replicate (audio.length / 2) 0,
         List.replicate (audio.length / 2) 0,
         List.replicate (audio.length / 2) 0,
         List.replicate (audio.length / 2) 0,
         List.replicate (audio.length / 2) 0⟩ = .error e) :
    process audio 2 infer = .error e := by
  unfold process
  rw [if_neg (by simp)]
  dsimp only
  rw [deinterleave_fst_length, h]

/-- The ordered overlap-add reconstruction of stem index `j` over all
chunks of a length-`n` mono signal, starting from a zero-filled buffer. -/
def stem_reconstruction (stems : ℕ → List (List ℚ)) (j n : ℕ) : List ℚ :=
  blend_sequence (fun k => (stems k).getD j []) (num_chunks n)
    (List.replicate n 0)

/-- Claim C3: on a successful run, engine output index 0 is blended into the
drums buffer, 1 into bass, 2 into other, 3 into vocals, and for a 6-stem
model 4 into guitar and 5 into piano — the fixed htdemucs protocol order
(drums, bass, other, vocals [, guitar, piano]) of `separation::stem_names`.
-/
theorem C3_stem_output_order (audio : List ℚ)
    (infer : ℕ → Option (List (List ℚ))) (stems : ℕ → List (List ℚ))
    (c : ℕ) (hc : c = 4 ∨ c = 6) (haudio : 2 ≤ audio.length)
    (hinf : ∀ k, k < num_chunks (audio.length / 2) →
      infer k = some (stems k) ∧ (stems k).length = c) :
    process audio 2 infer = .ok
      { drums := interleave_stereo
          (stem_reconstruction stems 0 (audio.length / 2))
          (stem_reconstruction stems 0 (audio.length / 2))
        bass := interleave_stereo
          (stem_reconstruction stems 1 (audio.length / 2))
          (stem_reconstruction stems 1 (audio.length / 2))
        other := interleave_stereo
          (stem_reconstruction stems 2 (audio.length / 2))
          (stem_reconstruction stems 2 (audio.length / 2))
        vocals := interleave_stereo
          (stem_reconstruction stems 3 (audio.length / 2))
          (stem_reconstruction stems 3 (audio.length / 2))
        guitar := if c = 6 then
            interleave_stereo
              (stem_reconstruction stems 4 (audio.length / 2))
              (stem_reconstruction stems 4 (audio.length / 2))
          else []
        piano := if c = 6 then
            interleave_stereo
              (stem_reconstruction stems 5 (audio.length / 2))
              (stem_reconstruction stems 5 (audio.length / 2))
          else [] } := by
  have hn : 0 < audio.length / 2 := by omega
  have hnc := num_chunks_pos _ hn
  unfold process
  rw [if_neg (by simp)]
  dsimp only
  rw [deinterleave_fst_length]
  rw [process_chunk_loop_ok infer stems c (num_chunks (audio.length / 2))
    hc hnc hinf (num_chunks (audio.length / 2)) 0 0 _ (by omega)
    (Or.inl rfl)]
  dsimp only
  unfold stem_reconstruction blend_sequence
  by_cases hc6 : c = 6
  · simp only [if_pos hc6]
  · simp only [if_neg hc6]

/-- Witness for C3: one chunk, a 4-stem engine result of empty buffers. -/
theorem C3_stem_output_order_witness :
    process [(0 : ℚ), 0] 2 (fun _ => some [[], [], [], []]) = .ok
      { drums := interleave_stereo
          (stem_reconstruction (fun _ => [[], [], [], []]) 0
            (([(0 : ℚ), 0] : List ℚ).length / 2))
          (stem_reconstruction (fun _ => [[], [], [], []]) 0
            (([(0 : ℚ), 0] : List ℚ).length / 2))
        bass := interleave_stereo
          (stem_reconstruction (fun _ => [[], [], [], []]) 1
            (([(0 : ℚ), 0] : List ℚ).length / 2))
          (stem_reconstruction (fun _ => [[], [], [], []]) 1
            (([(0 : ℚ), 0] : List ℚ).length / 2))
        other := interleave_stereo
          (stem_reconstruction (fun _ => [[], [], [], []]) 2
            (([(0 : ℚ), 0] : List ℚ).length / 2))
          (stem_reconstruction (fun _ => [[], [], [], []]) 2
            (([(0 : ℚ), 0] : List ℚ).length / 2))
        vocals := interleave_stereo
          (stem_reconstruction (fun _ => [[], [], [], []]) 3
            (([(0 : ℚ), 0] : List ℚ).length / 2))
          (stem_reconstruction (fun _ => [[], [], [], []]) 3
            (([(0 : ℚ), 0] : List ℚ).length / 2))
        guitar := if 4 = 6 then
            interleave_stereo
              (stem_reconstruction (fun _ => [[], [], [], []]) 4
                (([(0 : ℚ), 0] : List ℚ).length / 2))
              (stem_reconstruction (fun _ => [[], [], [], []]) 4
                (([(0 : ℚ), 0] : List ℚ).length / 2))
          else []
        piano := if 4 = 6 then
            interleave_stereo
              (stem_reconstruction (fun _ => [[], [], [], []]) 5
                (([(0 : ℚ), 0] : List ℚ).length / 2))
              (stem_reconstruction (fun _ => [[], [], [], []]) 5
                (([(0 : ℚ), 0] : List ℚ).length / 2))
          else [] } :=
  C3_stem_output_order [(0 : ℚ), 0] (fun _ => some [[], [], [], []])
    (fun _ => [[], [], [], []]) 4 (Or.inl rfl) (by simp)
    (fun k _ => ⟨rfl, rfl⟩)

/-- If some chunk `k ≥ 1` reports a stem count different from the cached
count `c`, the loop aborts with `OutputGenerationFailed`. -/
lemma process_chunk_loop_mismatch (infer : ℕ → Option (List (List ℚ)))
    (stems : ℕ → List (List ℚ)) (c nc k : ℕ) (s' : List (List ℚ))
    (hc : c = 4 ∨ c = 6) (hk0 : 0 < k) (hk : k < nc)
    (hpre : ∀ j, j < k → infer j = some (stems j) ∧ (stems j).length = c)
    (hkinf : infer k = some s') (hne : s'.length ≠ c) :
    ∀ (remaining idx d : ℕ) (bufs : StemBuffers),
      idx + remaining = nc → idx ≤ k → (idx = 0 ∨ d = c) →
      process_chunk_loop infer nc remaining idx d bufs =
        .error .OutputGenerationFailed := by
  intro remaining
  induction remaining with
  | zero =>
    intro idx d bufs hsum hle hd
    omega
  | succ r ih =>
    intro idx d bufs hsum hle hd
    by_cases hik : idx = k
    · subst hik
      unfold process_chunk_loop
      rw [hkinf]
      unfold process_chunk_body
      dsimp only
      rw [if_neg ?hm1, if_pos ?hm2]
      case hm1 =>
        rintro ⟨h0, _, _⟩
        omega
      case hm2 =>
        rw [if_neg (by omega)]
        rcases hd with hd | hd
        · omega
        · rw [hd]
          exact hne
    · have hlt : idx < k := by omega
      obtain ⟨hio, hlenc⟩ := hpre idx hlt
      have hdet : (if idx = 0 then (stems idx).length else d) = c := by
        split
        · exact hlenc
        · rcases hd with hd | hd
          · omega
          · exact hd
      unfold process_chunk_loop
      rw [hio]
      unfold process_chunk_body
      dsimp only
      rw [if_neg ?hm3, if_neg ?hm4]
      case hm3 =>
        rintro ⟨h0, h4, h6⟩
        rcases hc with hc | hc <;> omega
      case hm4 =>
        rw [hdet, hlenc]
        exact fun h => h rfl
      dsimp only
      exact ih (idx + 1) _ _ (by omega) (by omega) (Or.inr hdet)

/-- Claim C4: the stem count is read from the first chunk's inference result
and cached, only 4 or 6 being accepted; any subsequent chunk reporting a
different count makes the whole run fail with `OutputGenerationFailed`, so
no stems are returned. -/
theorem C4_stem_count_invariant (audio : List ℚ)
    (infer : ℕ → Option (List (List ℚ))) :
    (∀ s0 : List (List ℚ), infer 0 = some s0 → s0.length ≠ 4 →
      s0.length ≠ 6 → 0 < num_chunks (audio.length / 2) →
      process audio 2 infer = .error .OutputGenerationFailed) ∧
    (∀ (stems : ℕ → List (List ℚ)) (c k : ℕ) (s' : List (List ℚ)),
      (c = 4 ∨ c = 6) → 0 < k → k < num_chunks (audio.length / 2) →
      (∀ j, j < k → infer j = some (stems j) ∧ (stems j).length = c) →
      infer k = some s' → s'.length ≠ c →
      process audio 2 infer = .error .OutputGenerationFailed) := by
  constructor
  · intro s0 h0 h4 h6 hnc
    apply process_stereo_error
    obtain ⟨m, hm⟩ : ∃ m, num_chunks (audio.length / 2) = m + 1 :=
      ⟨num_chunks (audio.length / 2) - 1, by omega⟩
    rw [hm]
    unfold process_chunk_loop
    rw [h0]
    unfold process_chunk_body
    dsimp only
    rw [if_pos ⟨rfl, h4, h6⟩]
  · intro stems c k s' hc hk0 hk hpre hkinf hne
    apply process_stereo_error
    exact process_chunk_loop_mismatch infer stems c
      (num_chunks (audio.length / 2)) k s' hc hk0 hk hpre hkinf hne
      (num_chunks (audio.length / 2)) 0 0 _ (by omega) (by omega)
      (Or.inl rfl)

/-- Witness for C4: a two-chunk signal whose first chunk reports 4 stems
and whose second reports 6, aborting with `OutputGenerationFailed`. -/
theorem C4_stem_count_invariant_witness :
    process (List.replicate 653564 (0 : ℚ)) 2
        (fun j => if j = 0 then some [[], [], [], []]
          else some [[], [], [], [], [], []])
      = .error .OutputGenerationFailed :=
  (C4_stem_count_invariant (List.replicate 653564 (0 : ℚ))
      (fun j => if j = 0 then some [[], [], [], []]
        else some [[], [], [], [], [], []])).2
    (fun _ => [[], [], [], []]) 4 1 [[], [], [], [], [], []]
    (Or.inl rfl) (by decide)
    (by
      simp only [List.length_replicate]
      norm_num [num_chunks, chunk_step_eq])
    (by
      intro j hj
      have hj0 : j = 0 := by omega
      subst hj0
      exact ⟨rfl, rfl⟩)
    rfl
    (by decide)

/-! ## STFT forward transform (src/stft.cxx)

`fftwf_execute` on the cached real-to-complex plan belongs to the external
FFTW library, so it is abstracted as the `fft` field below, mapping a
windowed 4096-sample frame to its list of complex bins.  `window_` holds
the precomputed Hann coefficients (their transcendental values play no
role in the framing claims), and `plan_ok` stands for
`forward_plan_ && fftw_input_ && fftw_output_` after
`initialize_fftw()`. -/

/-- The transform engine's per-instance state. -/
structure StftProcessor where
  window : List ℚ
  fft : List ℚ → List (ℚ × ℚ)
  plan_ok : Bool

/-- Predicate `is_valid_input(data)`: non-empty and at least one window long. -/
def is_valid_input (data : List ℚ) : Bool :=
  !data.isEmpty && decide (window_size ≤ data.length)

/-- Function `calculate_num_frames(signal_length)`: centred (Demucs/PyTorch
`center=True`) framing, `signal_length / hop_size + 1`, and `0` for an
empty signal. -/
def calculate_num_frames (signal_length : ℕ) : ℕ :=
  if signal_length = 0 then 0 else signal_length / hop_size + 1

/-- The windowed, centre-padded input frame handed to the FFT for frame
`frame_idx` (the inner loop of `StftProcessor::forward`): reads zero
before the start or past the end of the signal and
`audio[audio_idx] * window_[i]` otherwise. -/
def frame_input (p : StftProcessor) (audio : List ℚ) (frame_idx : ℕ) :
    List ℚ :=
  let pad_size := window_size / 2
  let center_pos := frame_idx * hop_size
  let start_pos := if center_pos > pad_size then center_pos - pad_size else 0
  (List.range window_size).map fun i =>
    let padded_pos := start_pos + i
    let audio_idx := if padded_pos ≥ pad_size then padded_pos - pad_size
      else 0
    if padded_pos < pad_size ∨ audio_idx ≥ audio.length then 0
    else audio.getD audio_idx 0 * p.window.getD i 0

/-- Function `StftProcessor::forward(audio)`: validate the input, require the
cached plan, compute the frame count, then write the first `num_bins`
complex bins of each frame's FFT into the frame-major spectrogram. -/
def forward (p : StftProcessor) (audio : List ℚ) :
    Except StftError Spectrogram :=
  if is_valid_input audio = false then .error .InvalidInput
  else if p.plan_ok = false then .error .PlanningFailed
  else
    let nf := calculate_num_frames audio.length
    if nf = 0 then .error .InvalidInput
    else
      .ok
        { re := ((List.range nf).map fun f =>
            (List.range num_bins).map fun b =>
              ((p.fft (frame_input p audio f)).getD b (0, 0)).1).flatten
          im := ((List.range nf).map fun f =>
            (List.range num_bins).map fun b =>
              ((p.fft (frame_input p audio f)).getD b (0, 0)).2).flatten
          num_frames := nf
          numBins := num_bins }

lemma is_valid_input_eq_false (audio : List ℚ) :
    is_valid_input audio = false ↔ audio.length < window_size := by
  unfold is_valid_input
  rcases audio with _ | ⟨a, rest⟩
  · simp [window_size]
  · simp only [List.isEmpty_cons, Bool.not_false, Bool.true_and,
      decide_eq_false_iff_not, Nat.not_le]

/-- Claim C5: with the FFT plan and buffers initialised, `forward(samples)`
returns `InvalidInput` exactly when `samples.length < window_size`;
otherwise it succeeds with `num_frames = samples.length / hop_size + 1`
(centred framing) and `num_bins = fft_size / 2`. -/
theorem C5_forward_framing (p : StftProcessor) (audio : List ℚ)
    (hplan : p.plan_ok = true) :
    (forward p audio = .error .InvalidInput ↔
      audio.length < window_size) ∧
    (window_size ≤ audio.length →
      ∃ spec : Spectrogram, forward p audio = .ok spec ∧
        spec.num_frames = audio.length / hop_size + 1 ∧
        spec.numBins = fft_size / 2) := by
  constructor
  · constructor
    · intro herr
      by_contra hlen
      rw [Nat.not_lt] at hlen
      unfold forward at herr
      rw [if_neg (by rw [is_valid_input_eq_false]; omega)] at herr
      rw [if_neg (by rw [hplan]; simp)] at herr
      dsimp only at herr
      rw [if_neg (by
        unfold calculate_num_frames
        rw [if_neg (by unfold window_size at hlen; omega)]
        simp)] at herr
      exact absurd herr (by simp)
    · intro hlen
      unfold forward
      rw [if_pos (by rw [is_valid_input_eq_false]; omega)]
  · intro hlen
    unfold forward
    rw [if_neg (by rw [is_valid_input_eq_false]; omega)]
    rw [if_neg (by rw [hplan]; simp)]
    dsimp only
    rw [if_neg (by
      unfold calculate_num_frames
      rw [if_neg (by unfold window_size at hlen; omega)]
      simp)]
    refine ⟨_, rfl, ?_, rfl⟩
    unfold calculate_num_frames
    rw [if_neg (by unfold window_size at hlen; omega)]

/-- Witness for C5: a zero window of exactly `window_size` samples and a
trivial engine instance. -/
theorem C5_forward_framing_witness :
    (forward ⟨[], fun _ => [], true⟩ (List.replicate 4096 (0 : ℚ))
        = .error .InvalidInput ↔
      (List.replicate 4096 (0 : ℚ)).length < window_size) ∧
    (window_size ≤ (List.replicate 4096 (0 : ℚ)).length →
      ∃ spec : Spectrogram,
        forward ⟨[], fun _ => [], true⟩ (List.replicate 4096 (0 : ℚ))
          = .ok spec ∧
        spec.num_frames
          = (List.replicate 4096 (0 : ℚ)).length / hop_size + 1 ∧
        spec.numBins = fft_size / 2) :=
  C5_forward_framing ⟨[], fun _ => [], true⟩ (List.replicate 4096 (0 : ℚ))
    rfl

/-! ## Tensor marshalling (`OnnxModel::infer`, src/onnx_model.cxx) -/

/-- Input packing of the spectral tensor (onnx_model.cxx lines 130–171):
`spec_size = num_bins * num_frames` from the left spectrogram; the four
component arrays are validated to hold exactly `spec_size` elements each
*before* any copy (`InferenceFailed` on mismatch); on success the shape is
`[1, 4, num_bins, num_frames]` and the data lays out channel 0 = real
(left), 1 = imag (left), 2 = real (right), 3 = imag (right) as contiguous
`spec_size` blocks. -/
def pack_spectrogram_tensor (spec_left spec_right : Spectrogram) :
    Except ModelError (List ℤ × List ℚ) :=
  let spec_size := spec_left.numBins * spec_left.num_frames
  if spec_left.re.length ≠ spec_size ∨ spec_left.im.length ≠ spec_size ∨
      spec_right.re.length ≠ spec_size ∨
      spec_right.im.length ≠ spec_size then
    .error .InferenceFailed
  else
    .ok ([1, 4, (spec_left.numBins : ℤ), (spec_left.num_frames : ℤ)],
      spec_left.re ++ spec_left.im ++ spec_right.re ++ spec_right.im)

/-- Claim C7: input packing builds the spectral tensor of shape
`[1, 4, num_bins, num_frames]` with channel 0 = real(left),
1 = imag(left), 2 = real(right), 3 = imag(right), each channel a
contiguous block of `num_bins * num_frames` elements; before any copy it
validates that each of the four component arrays has exactly
`num_bins * num_frames` elements, and returns an error (no tensor built)
on any mismatch. -/
theorem C7_input_packing (sl sr : Spectrogram) :
    (¬(sl.re.length = sl.numBins * sl.num_frames ∧
        sl.im.length = sl.numBins * sl.num_frames ∧
        sr.re.length = sl.numBins * sl.num_frames ∧
        sr.im.length = sl.numBins * sl.num_frames) →
      pack_spectrogram_tensor sl sr = .error .InferenceFailed) ∧
    ((sl.re.length = sl.numBins * sl.num_frames ∧
        sl.im.length = sl.numBins * sl.num_frames ∧
        sr.re.length = sl.numBins * sl.num_frames ∧
        sr.im.length = sl.numBins * sl.num_frames) →
      ∃ data : List ℚ,
        pack_spectrogram_tensor sl sr =
          .ok ([1, 4, (sl.numBins : ℤ), (sl.num_frames : ℤ)], data) ∧
        data.length = 4 * (sl.numBins * sl.num_frames) ∧
        (∀ j, j < sl.numBins * sl.num_frames →
          data.getD (0 * (sl.numBins * sl.num_frames) + j) 0
              = sl.re.getD j 0 ∧
          data.getD (1 * (sl.numBins * sl.num_frames) + j) 0
              = sl.im.getD j 0 ∧
          data.getD (2 * (sl.numBins * sl.num_frames) + j) 0
              = sr.re.getD j 0 ∧
          data.getD (3 * (sl.numBins * sl.num_frames) + j) 0
              = sr.im.getD j 0)) := by
  constructor
  · intro hbad
    unfold pack_spectrogram_tensor
    rw [if_pos (by tauto)]
  · rintro ⟨h1, h2, h3, h4⟩
    unfold pack_spectrogram_tensor
    rw [if_neg (by tauto)]
    refine ⟨_, rfl, ?_, ?_⟩
    · simp only [List.length_append, h1, h2, h3, h4]
      ring
    · intro j hj
      have l12 : (sl.re ++ sl.im).length =
          sl.numBins * sl.num_frames + sl.numBins * sl.num_frames := by
        simp [h1, h2]
      have l123 : (sl.re ++ sl.im ++ sr.re).length =
          sl.numBins * sl.num_frames + sl.numBins * sl.num_frames +
            sl.numBins * sl.num_frames := by
        simp only [List.length_append, h1, h2, h3]
      simp only [Nat.zero_mul, Nat.zero_add, Nat.one_mul]
      refine ⟨?_, ?_, ?_, ?_⟩
      · rw [List.getD_append _ _ 0 _ (by omega)]
        rw [List.getD_append _ _ 0 _ (by omega)]
        rw [List.getD_append _ _ 0 _ (by omega)]
      · rw [List.getD_append _ _ 0 _ (by omega)]
        rw [List.getD_append _ _ 0 _ (by omega)]
        rw [List.getD_append_right _ _ 0 _ (by omega)]
        congr 1
        omega
      · rw [List.getD_append _ _ 0 _ (by omega)]
        rw [List.getD_append_right _ _ 0 _ (by omega)]
        congr 1
        omega
      · rw [List.getD_append_right _ _ 0 _ (by omega)]
        congr 1
        omega

/-- Witness for C7 at two 1×1 spectrograms. -/
theorem C7_input_packing_witness :
    ∃ data : List ℚ,
      pack_spectrogram_tensor ⟨[2], [3], 1, 1⟩ ⟨[4], [5], 1, 1⟩
        = .ok ([1, 4, ((1 : ℕ) : ℤ), ((1 : ℕ) : ℤ)], data) ∧
      data.length = 4 * (1 * 1) ∧
      data.getD (2 * (1 * 1) + 0) 0 = ([4] : List ℚ).getD 0 0 := by
  obtain ⟨data, heq, hlen, hat⟩ :=
    (C7_input_packing ⟨[2], [3], 1, 1⟩ ⟨[4], [5], 1, 1⟩).2
      (by refine ⟨?_, ?_, ?_, ?_⟩ <;> simp)
  exact ⟨data, heq, hlen, (hat 0 (by decide)).2.2.1⟩

/-- Output unpacking of the time-domain tensor (onnx_model.cxx lines
210–267): the shape must be 4-dimensional with batch `shape[0] = 1` and
channel count `shape[2] = 2`, and the stem count `shape[1]` must be 4
or 6; otherwise the chunk fails with `InferenceFailed` before any stem
data is extracted.  On success, stem `i`'s left channel is the
`samples_per_stem` samples at offset `i * 2 * samples_per_stem`, stored in
the `real` field of a placeholder `Spectrogram` (`num_frames = 1`,
`num_bins = samples_per_stem`).  A negative `shape[1]` maps under C++'s
`static_cast<size_t>` to a huge value, never 4 or 6, exactly as `Int.toNat`
here gives a value that fails the same test. -/
def unpack_time_domain (shape : List ℤ) (data : List ℚ) :
    Except ModelError (List Spectrogram) :=
  if shape.length ≠ 4 ∨ shape.getD 0 0 ≠ 1 ∨ shape.getD 2 0 ≠ 2 then
    .error .InferenceFailed
  else
    let num_stems := (shape.getD 1 0).toNat
    if num_stems ≠ 4 ∧ num_stems ≠ 6 then .error .InferenceFailed
    else
      let num_channels := (shape.getD 2 0).toNat
      let samples_per_stem := (shape.getD 3 0).toNat
      .ok ((List.range num_stems).map fun stem_idx =>
        let stem_offset := stem_idx * num_channels * samples_per_stem
        { re := (List.range samples_per_stem).map fun i =>
            data.getD (stem_offset + 0 * samples_per_stem + i) 0
          im := List.replicate samples_per_stem 0
          num_frames := 1
          numBins := samples_per_stem })

/-- Claim C8: output unpacking fails with `InferenceFailed` exactly when the
time-domain tensor's shape is not 4-dimensional with batch 1 and channel
count 2 or its stem count is neither 4 nor 6; on success the number of
extracted stems is the count read from the shape. -/
theorem C8_output_shape_validation (shape : List ℤ) (data : List ℚ) :
    (unpack_time_domain shape data = .error .InferenceFailed ↔
      ¬(shape.length = 4 ∧ shape.getD 0 0 = 1 ∧ shape.getD 2 0 = 2 ∧
        ((shape.getD 1 0).toNat = 4 ∨ (shape.getD 1 0).toNat = 6))) ∧
    (∀ stems_list : List Spectrogram,
      unpack_time_domain shape data = .ok stems_list →
      stems_list.length = (shape.getD 1 0).toNat) := by
  constructor
  · constructor
    · intro herr hgood
      obtain ⟨hl, h0, h2, hs⟩ := hgood
      unfold unpack_time_domain at herr
      rw [if_neg (by tauto)] at herr
      dsimp only at herr
      rw [if_neg (by tauto)] at herr
      exact absurd herr (by simp)
    · intro hbad
      unfold unpack_time_domain
      by_cases hshape : shape.length ≠ 4 ∨ shape.getD 0 0 ≠ 1 ∨
          shape.getD 2 0 ≠ 2
      · rw [if_pos hshape]
      · rw [if_neg hshape]
        dsimp only
        rw [if_pos (by tauto)]
  · intro stems_list hok
    unfold unpack_time_domain at hok
    by_cases hshape : shape.length ≠ 4 ∨ shape.getD 0 0 ≠ 1 ∨
        shape.getD 2 0 ≠ 2
    · rw [if_pos hshape] at hok
      exact absurd hok (by simp)
    · rw [if_neg hshape] at hok
      dsimp only at hok
      by_cases hstems : (shape.getD 1 0).toNat ≠ 4 ∧
          (shape.getD 1 0).toNat ≠ 6
      · rw [if_pos hstems] at hok
        exact absurd hok (by simp)
      · rw [if_neg hstems] at hok
        have := (Except.ok.injEq _ _).mp hok
        subst this
        simp

/-- Witness for C8: a shape announcing 5 stems is rejected, and a valid
4-stem shape yields 4 extracted stems. -/
theorem C8_output_shape_validation_witness :
    unpack_time_domain [1, 5, 2, 3] [] = .error .InferenceFailed ∧
    ∀ stems_list : List Spectrogram,
      unpack_time_domain [1, 4, 2, 3] [] = .ok stems_list →
      stems_list.length = ((([1, 4, 2, 3] : List ℤ).getD 1 0)).toNat :=
  ⟨(C8_output_shape_validation [1, 5, 2, 3] []).1.mpr (by decide),
   (C8_output_shape_validation [1, 4, 2, 3] []).2⟩

end Stems
